import Mathlib

/-!
Verification of the utility layer of shell_gpt (`sgpt/utils.py`).

Python strings are modelled as `List Char`.  Python's `str.strip`, `str.split`,
`re.sub(r'<think>.*?</think>', ...)` and
`re.search(r'```(?:bash)?\s*(.*?)\s*```', ...)` are embedded as executable
Lean functions below; whitespace is modelled as the six ASCII whitespace
characters matched by Python's `\s` on ASCII text.
-/

namespace SGPT

/-- ASCII whitespace, as matched by Python's `\s` / stripped by `str.strip`
on ASCII input: space, tab, newline, carriage return, vertical tab, form feed. -/
def isSpace (c : Char) : Bool :=
  c = ' ' || c = '\t' || c = '\n' || c = '\r' || c = Char.ofNat 11 || c = Char.ofNat 12

/-- Python `str.lstrip()`. -/
def stripLeft (s : List Char) : List Char := s.dropWhile isSpace

/-- Python `str.rstrip()`. -/
def stripRight (s : List Char) : List Char := (s.reverse.dropWhile isSpace).reverse

/-- Python `str.strip()`. -/
def strip (s : List Char) : List Char := stripRight (stripLeft s)

/-- The opening chain-of-thought tag `<think>` (7 characters). -/
def openTag : List Char := "<think>".data

/-- The closing chain-of-thought tag `</think>` (8 characters). -/
def closeTag : List Char := "</think>".data

/-- A code fence: three backticks. -/
def btick : List Char := "```".data

/-- The optional language tag accepted by the fence regex. -/
def bashTag : List Char := "bash".data

def nlChar : Char := '\n'

def pipeChar : Char := '|'

def semiChar : Char := ';'

/-- The backtick character. -/
def btChar : Char := Char.ofNat 96

/-- Index of the first occurrence of `pat` in `s` (Python `str.find` /
the position where a regex literal first matches), `none` if absent. -/
def findSub? (pat : List Char) : List Char → Option Nat
  | [] => if pat.isPrefixOf ([] : List Char) then some 0 else none
  | c :: cs =>
    if pat.isPrefixOf (c :: cs) then some 0
    else (findSub? pat cs).map (fun n => n + 1)

/-- Python's `pat in s` substring test. -/
def containsSub (pat s : List Char) : Bool := (findSub? pat s).isSome

/-- One pass of `re.sub(r'<think>.*?</think>', '', s, flags=re.DOTALL)`:
repeatedly find the leftmost `<think>`, then the first `</think>` after it
(non-greedy `.*?` with DOTALL stops at the first closing tag), delete the
matched span and continue scanning after it; matches never overlap and the
text before the match is not rescanned, exactly as `re.sub` behaves.
Each deletion removes 15 + j characters, so `s.length` units of fuel always
suffice; the recursion is structural in the fuel so that the function
evaluates inside the kernel. -/
def removeThinkFuel : Nat → List Char → List Char
  | 0, s => s
  | fuel + 1, s =>
    match findSub? openTag s with
    | none => s
    | some i =>
      match findSub? closeTag (s.drop (i + 7)) with
      | none => s
      | some j => s.take i ++ removeThinkFuel fuel (s.drop (i + 7 + (j + 8)))

/-- `re.sub(r'<think>.*?</think>', '', s, flags=re.DOTALL)`. -/
def removeThink (s : List Char) : List Char := removeThinkFuel s.length s

/-- `sanitize_command` from `sgpt/utils.py`:
`re.sub(r'<think>.*?</think>', '', command, flags=re.DOTALL).strip()`. -/
def sanitize_command (command : List Char) : List Char := strip (removeThink command)

/-- `re.search(r'```(?:bash)?\s*(.*?)\s*```', s, flags=re.DOTALL)`, returning
`group(1)` of the leftmost match.  At the leftmost position carrying a
literal ```` ``` ````, the optional `bash` tag is consumed greedily (when
`bash` is present, the skip-alternative can never succeed where the
bash-alternative fails, since `bash` contains no backtick), the greedy
leading `\s*` swallows the maximal whitespace run, the non-greedy `(.*?)`
stops at the earliest closing ```` ``` ```` and the trailing greedy `\s*`
takes the maximal whitespace run before that fence, i.e. `group(1)` is the
right-stripped text up to the first closing fence.  If no closing fence
follows, the engine retries from the next position. -/
def extractFence? : List Char → Option (List Char)
  | [] => none
  | c :: cs =>
    if btick.isPrefixOf (c :: cs) then
      let t1 := cs.drop 2
      let t2 := if bashTag.isPrefixOf t1 then t1.drop 4 else t1
      let t3 := t2.dropWhile isSpace
      match findSub? btick t3 with
      | some m => some (stripRight (t3.take m))
      | none => extractFence? cs
    else extractFence? cs

/-- The command text `run_command` works with after its first two steps:
`command = sanitize_command(command)` followed by
`if code_block_match: command = code_block_match.group(1)`. -/
def commandText (command : List Char) : List Char :=
  let s := sanitize_command command
  match extractFence? s with
  | some inner => inner
  | none => s

/-- Python `str.split(sep)` for a one-character separator
(used as `command.split('\n')` and `PSModulePath.split(os.pathsep)`). -/
def splitOn (sep : Char) : List Char → List (List Char)
  | [] => [[]]
  | c :: cs =>
    if c = sep then [] :: splitOn sep cs
    else
      match splitOn sep cs with
      | [] => [[c]]
      | h :: t => (c :: h) :: t

/-- Helper for `wsSplit`: `cur` is the current token, reversed. -/
def wsSplitAux : List Char → List Char → List (List Char)
  | cur, [] => if cur.isEmpty then [] else [cur.reverse]
  | cur, c :: cs =>
    if isSpace c then
      if cur.isEmpty then wsSplitAux [] cs
      else cur.reverse :: wsSplitAux [] cs
    else wsSplitAux (c :: cur) cs

/-- Python `str.split()` with no argument: split on whitespace runs,
discarding empty tokens. -/
def wsSplit (s : List Char) : List (List Char) := wsSplitAux [] s

/-- The base-command extraction `cmd.split('|')[0].strip().split()[0]`.
Python raises `IndexError` when the final `[0]` is applied to an empty
list; that failure is modelled by `none`. -/
def baseCmd? (cmd : List Char) : Option (List Char) :=
  (wsSplit (strip (cmd.takeWhile (fun c => c != pipeChar)))).head?

/-- The per-line filtering loop of `run_command`.  `resolves b` models
`os.system(f"which {b} >/dev/null 2>&1") == 0`.  Returns the kept command
lines together with the base commands warned about
(`Command not found: {base_cmd}`), or `.error ()` when the base-command
extraction raises `IndexError`. -/
def filterCommands (isWindows : Bool) (resolves : List Char → Bool) :
    List (List Char) → Except Unit (List (List Char) × List (List Char))
  | [] => .ok ([], [])
  | cmd :: rest =>
    if (strip cmd).isEmpty then filterCommands isWindows resolves rest
    else
      match baseCmd? cmd with
      | none => .error ()
      | some base =>
        match filterCommands isWindows resolves rest with
        | .error e => .error e
        | .ok (ks, ws) =>
          if isWindows then .ok (cmd :: ks, ws)
          else if resolves base then .ok (cmd :: ks, ws)
          else .ok (ks, base :: ws)

/-- Python `sep.join(strs)`. -/
def joinSep (sep : List Char) : List (List Char) → List Char
  | [] => []
  | [x] => x
  | x :: xs => x ++ sep ++ joinSep sep xs

/-- The character class of `shlex.quote`'s `_find_unsafe` regex (ASCII
word characters plus `@ % + = : , . -` and the slash): a character is safe
when it is an ASCII letter, digit, underscore or one of those symbols. -/
def shlexSafe (c : Char) : Bool :=
  c.isAlphanum || c = '_' || c = '@' || c = '%' || c = '+' || c = '=' ||
    c = ':' || c = ',' || c = '.' || c = '/' || c = '-'

/-- The single-quote character. -/
def sqChar : Char := Char.ofNat 39

/-- The double-quote character. -/
def dqChar : Char := '"'

/-- Python `str.replace(target, rep)` for a one-character target. -/
def pyReplaceChar (target : Char) (rep : List Char) : List Char → List Char
  | [] => []
  | c :: cs => (if c = target then rep else [c]) ++ pyReplaceChar target rep cs

/-- `shlex.quote(s)`: empty strings become two single quotes; strings made
only of safe characters are returned unchanged; otherwise the string is
wrapped in single quotes with every embedded single quote replaced by
the five-character sequence quote, double-quote, quote, double-quote,
quote. -/
def shlexQuote (s : List Char) : List Char :=
  if s.isEmpty then [sqChar, sqChar]
  else if s.all shlexSafe then s
  else sqChar :: (pyReplaceChar sqChar [sqChar, dqChar, sqChar, dqChar, sqChar] s ++ [sqChar])

/-- Outcome of `run_command`:  `indexError` models the uncaught Python
`IndexError` from the base-command extraction; `noValidCommands` models
printing `No valid commands to execute` and returning without spawning a
shell; `executed full` models the final `os.system(full_command)` with the
exact string handed to the system shell. -/
inductive RunResult where
  | indexError : RunResult
  | noValidCommands : RunResult
  | executed : List Char → RunResult
deriving DecidableEq

/-- `f'powershell.exe -Command "{"; ".join(filtered_commands)}"'`. -/
def psCommand (l : List (List Char)) : List Char :=
  "powershell.exe -Command \"".data ++ joinSep "; ".data l ++ "\"".data

/-- `f'cmd.exe /c "{" && ".join(filtered_commands)}"'`. -/
def cmdExeCommand (l : List (List Char)) : List Char :=
  "cmd.exe /c \"".data ++ joinSep " && ".data l ++ "\"".data

/-- `f"{shell} -c {shlex.quote('; '.join(filtered_commands))}"` where
`shell = os.environ.get("SHELL", "/bin/sh")`. -/
def posixCommand (shellEnv : Option (List Char)) (l : List (List Char)) : List Char :=
  shellEnv.getD "/bin/sh".data ++ " -c ".data ++ shlexQuote (joinSep "; ".data l)

/-- `run_command` from `sgpt/utils.py`.  Environment access is made
explicit: `isWindows` is `platform.system() == "Windows"`, `psModulePath`
is `os.getenv("PSModulePath")` (`os.pathsep` is `;` on Windows), `shellEnv`
is `os.environ.get("SHELL")` and `resolves` models the `which` probe. -/
def run_command (isWindows : Bool) (psModulePath : Option (List Char))
    (shellEnv : Option (List Char)) (resolves : List Char → Bool)
    (command : List Char) : RunResult :=
  let cmd := commandText command
  let commands := splitOn nlChar cmd
  match filterCommands isWindows resolves commands with
  | .error _ => .indexError
  | .ok (kept, _warned) =>
    if kept.isEmpty then .noValidCommands
    else if isWindows then
      if 3 ≤ (splitOn semiChar (psModulePath.getD [])).length then
        .executed (psCommand kept)
      else .executed (cmdExeCommand kept)
    else .executed (posixCommand shellEnv kept)

/-- The rc files touched by `install_shell_integration`. -/
structure RcState where
  zshrc : List Char
  bashrc : List Char
deriving DecidableEq

/-- Outcome of the body of `install_shell_integration`: normal return, or
the raised `UsageError("ShellGPT integrations only available for ZSH and
Bash.")`. -/
inductive InstallResult where
  | ok : InstallResult
  | usageError : InstallResult
deriving DecidableEq

/-- The body of `install_shell_integration` from `sgpt/utils.py` (inside
its `@option_callback` wrapper).  `zshInt` and `bashInt` stand for the
static blobs `zsh_integration` and `bash_integration` imported from
`sgpt.integration` (a file outside this excerpt); their contents never
matter, so they are taken as parameters.  `shell` is
`os.environ.get("SHELL", "")`; membership tests are Python's substring
`in`.  The returned state is the new contents of `~/.zshrc` and
`~/.bashrc`. -/
def install_shell_integration (zshInt bashInt : List Char)
    (shell : Option (List Char)) (st : RcState) : InstallResult × RcState :=
  let sh := shell.getD []
  if containsSub "zsh".data sh then
    (.ok, { st with zshrc := st.zshrc ++ zshInt })
  else if containsSub "bash".data sh then
    (.ok, { st with bashrc := st.bashrc ++ bashInt })
  else (.usageError, st)

/-- The observable filesystem/process events of `get_edited_prompt`. -/
inductive EditEvent where
  | createTemp : EditEvent
  | runEditor : EditEvent
  | readFile : EditEvent
  | deleteFile : EditEvent
deriving DecidableEq

/-- The `BadParameter("Couldn't get valid PROMPT from $EDITOR")` raised by
`get_edited_prompt`. -/
inductive PromptError where
  | badParameter : PromptError
deriving DecidableEq

/-- `get_edited_prompt` from `sgpt/utils.py`.  `editorOutput` is the text
found in the temp file once the (blocking) `os.system(f"{editor} {path}")`
call returns.  The event trace records the order of external effects:
`NamedTemporaryFile` creation, the editor invocation, the `open`/`read`,
and `os.remove`; the emptiness check happens only after the removal. -/
def get_edited_prompt (editorOutput : List Char) :
    List EditEvent × Except PromptError (List Char) :=
  let trace0 := [EditEvent.createTemp]
  let trace1 := trace0 ++ [EditEvent.runEditor]
  let output := editorOutput
  let trace2 := trace1 ++ [EditEvent.readFile]
  let trace3 := trace2 ++ [EditEvent.deleteFile]
  if output.isEmpty then (trace3, .error .badParameter)
  else (trace3, .ok output)

/-- The `wrapper` produced by `option_callback` from `sgpt/utils.py`.
The wrapped callback's side effects are abstracted as a state transformer
`func : σ → σ`; `value` is the CLI flag value (Python truthiness of a
string is non-emptiness).  The returned Bool is `true` exactly when
`typer.Exit` is raised after running the callback. -/
def option_callback {σ : Type} (func : σ → σ) (state : σ) (value : List Char) :
    σ × Bool :=
  if value.isEmpty then (state, false)
  else (func state, true)

/-! ## Prefix and substring-search lemmas -/

lemma isPrefixOf_length_le {p : List Char} :
    ∀ {s : List Char}, p.isPrefixOf s = true → p.length ≤ s.length := by
  induction p with
  | nil => intro s _; simp
  | cons a as ih =>
    intro s h
    cases s with
    | nil => simp [List.isPrefixOf] at h
    | cons b bs =>
      simp only [List.isPrefixOf, Bool.and_eq_true] at h
      simpa using ih h.2

lemma isPrefixOf_append_self : ∀ (p r : List Char), p.isPrefixOf (p ++ r) = true := by
  intro p r
  induction p with
  | nil => simp [List.isPrefixOf]
  | cons a as ih => simp [List.isPrefixOf, ih]

lemma isPrefixOf_getElem? {p : List Char} :
    ∀ {s : List Char}, p.isPrefixOf s = true →
      ∀ i, i < p.length → p[i]? = s[i]? := by
  induction p with
  | nil => intro s _ i hi; simp at hi
  | cons a as ih =>
    intro s h i hi
    cases s with
    | nil => simp [List.isPrefixOf] at h
    | cons b bs =>
      simp only [List.isPrefixOf, Bool.and_eq_true, beq_iff_eq] at h
      cases i with
      | zero => simp [h.1]
      | succ n =>
        simp only [List.getElem?_cons_succ]
        exact ih h.2 n (by simpa using hi)

lemma isPrefixOf_append_left {p : List Char} :
    ∀ (u : List Char) {v : List Char}, p.isPrefixOf (u ++ v) = true →
      p.length ≤ u.length → p.isPrefixOf u = true := by
  induction p with
  | nil => intro u v _ _; cases u <;> rfl
  | cons a as ih =>
    intro u v h hl
    cases u with
    | nil => simp at hl
    | cons b bs =>
      simp only [List.cons_append, List.isPrefixOf, Bool.and_eq_true] at h ⊢
      exact ⟨h.1, ih bs h.2 (by simpa using hl)⟩

lemma findSub?_isSome_of (pat : List Char) :
    ∀ (s : List Char) (j : Nat), pat.isPrefixOf (s.drop j) = true →
      (findSub? pat s).isSome = true := by
  intro s
  induction s with
  | nil =>
    intro j h
    rw [List.drop_nil] at h
    simp [findSub?, h]
  | cons c cs ih =>
    intro j h
    by_cases hp : pat.isPrefixOf (c :: cs) = true
    · simp [findSub?, hp]
    · cases j with
      | zero => rw [List.drop_zero] at h; exact absurd h hp
      | succ n =>
        have hrec := ih n (by simpa using h)
        simp only [findSub?, hp, if_false, Bool.false_eq_true]
        simpa [Option.isSome_map] using hrec

lemma not_isPrefixOf_drop {pat u : List Char} (h : containsSub pat u = false) (j : Nat) :
    pat.isPrefixOf (u.drop j) = false := by
  by_contra hc
  simp only [Bool.not_eq_false] at hc
  have hs := findSub?_isSome_of pat u j hc
  rw [containsSub] at h
  rw [h] at hs
  cases hs

lemma isPrefixOf_of_findSub? (pat : List Char) :
    ∀ (s : List Char) (i : Nat), findSub? pat s = some i →
      pat.isPrefixOf (s.drop i) = true := by
  intro s
  induction s with
  | nil =>
    intro i h
    by_cases hp : pat.isPrefixOf ([] : List Char) = true
    · simp only [findSub?, hp, if_true] at h
      cases h
      simpa using hp
    · simp [findSub?, hp] at h
  | cons c cs ih =>
    intro i h
    by_cases hp : pat.isPrefixOf (c :: cs) = true
    · simp only [findSub?, hp, if_true] at h
      cases h
      simpa using hp
    · simp only [findSub?, hp, if_false, Bool.false_eq_true, Option.map_eq_some'] at h
      obtain ⟨n, hn, hi⟩ := h
      subst hi
      simpa using ih n hn

lemma findSub?_of_min (pat : List Char) :
    ∀ (s : List Char) (i : Nat), pat.isPrefixOf (s.drop i) = true →
      (∀ j, j < i → pat.isPrefixOf (s.drop j) = false) →
      findSub? pat s = some i := by
  intro s
  induction s with
  | nil =>
    intro i hpre hmin
    have h0 : pat.isPrefixOf ([] : List Char) = true := by simpa using hpre
    cases i with
    | zero => simp [findSub?, h0]
    | succ n =>
      have := hmin 0 (Nat.succ_pos n)
      rw [List.drop_nil] at this
      rw [this] at h0
      cases h0
  | cons c cs ih =>
    intro i hpre hmin
    cases i with
    | zero =>
      rw [List.drop_zero] at hpre
      simp [findSub?, hpre]
    | succ n =>
      have h0 : pat.isPrefixOf (c :: cs) = false := by
        simpa using hmin 0 (Nat.succ_pos n)
      have hrec := ih n (by simpa using hpre)
        (fun j hj => by simpa using hmin (j + 1) (Nat.succ_lt_succ hj))
      simp [findSub?, h0, hrec]

lemma containsSub_append_right {pat : List Char} (u v : List Char)
    (h : containsSub pat (u ++ v) = false) : containsSub pat v = false := by
  by_contra hc
  simp only [Bool.not_eq_false] at hc
  rw [containsSub, Option.isSome_iff_exists] at hc
  obtain ⟨j, hj⟩ := hc
  have hpre := isPrefixOf_of_findSub? pat v j hj
  have hdrop : (u ++ v).drop (u.length + j) = v.drop j := by
    rw [List.drop_append_eq_append_drop]
    rw [List.drop_eq_nil_of_le (by omega), Nat.add_sub_cancel_left]
    rfl
  have hs := findSub?_isSome_of pat (u ++ v) (u.length + j) (by rw [hdrop]; exact hpre)
  rw [containsSub] at h
  rw [h] at hs
  cases hs

lemma containsSub_cons {pat : List Char} (x : Char) (a : List Char)
    (h : containsSub pat (x :: a) = false) : containsSub pat a = false :=
  containsSub_append_right [x] a h

/-- First occurrence of a pattern `hch :: t` whose head character appears
nowhere in its tail: in `u ++ pat ++ r` with no occurrence inside `u`, the
first occurrence starts exactly at `u.length` (no occurrence can straddle
the boundary, since the straddling position would have to carry the head
character inside the tail). -/
lemma findSub?_boundary_head (hch : Char) (t u r : List Char) (hmem : hch ∉ t)
    (hu : containsSub (hch :: t) u = false) :
    findSub? (hch :: t) (u ++ ((hch :: t) ++ r)) = some u.length := by
  apply findSub?_of_min
  · rw [List.drop_left]
    exact isPrefixOf_append_self _ _
  · intro j hj
    by_contra hc
    simp only [Bool.not_eq_false] at hc
    rw [List.drop_append_eq_append_drop, Nat.sub_eq_zero_of_le (le_of_lt hj),
      List.drop_zero] at hc
    rcases le_or_lt (t.length + 1) (u.drop j).length with hle | hlt
    · have hpu := isPrefixOf_append_left (u.drop j) hc (by simpa using hle)
      have hs := findSub?_isSome_of (hch :: t) u j hpu
      rw [containsSub] at hu
      rw [hu] at hs
      cases hs
    · have hlen : (u.drop j).length = u.length - j := List.length_drop _ _
      have h1 := isPrefixOf_getElem? hc (u.drop j).length (by simpa using hlt)
      rw [List.getElem?_append_right (le_refl _), Nat.sub_self] at h1
      rw [List.cons_append] at h1
      obtain ⟨n, hn⟩ : ∃ n, (u.drop j).length = n + 1 := ⟨(u.drop j).length - 1, by omega⟩
      rw [hn, List.getElem?_cons_succ] at h1
      have h2 : t[n]? = some hch := by rw [h1]; simp
      have hmem2 : hch ∈ t := by
        obtain ⟨hlt2, he⟩ := List.getElem?_eq_some.mp h2
        exact he ▸ List.getElem_mem hlt2
      exact hmem hmem2

/-- First occurrence of a pattern all of whose characters are the same
`ch`: in `u ++ p ++ r` with no occurrence inside `u` and `u` not ending in
`ch`, the first occurrence starts exactly at `u.length` (a straddling
occurrence would force `u`'s last character to be `ch`). -/
lemma findSub?_boundary_same (ch : Char) (p u r : List Char) (_hp : 0 < p.length)
    (hall : ∀ x ∈ p, x = ch) (hu : containsSub p u = false)
    (hlast : u.getLast? ≠ some ch) :
    findSub? p (u ++ (p ++ r)) = some u.length := by
  apply findSub?_of_min
  · rw [List.drop_left]
    exact isPrefixOf_append_self _ _
  · intro j hj
    by_contra hc
    simp only [Bool.not_eq_false] at hc
    rw [List.drop_append_eq_append_drop, Nat.sub_eq_zero_of_le (le_of_lt hj),
      List.drop_zero] at hc
    rcases le_or_lt p.length (u.drop j).length with hle | hlt
    · have hpu := isPrefixOf_append_left (u.drop j) hc hle
      have hs := findSub?_isSome_of p u j hpu
      rw [containsSub] at hu
      rw [hu] at hs
      cases hs
    · have hlen : (u.drop j).length = u.length - j := List.length_drop _ _
      have hk1 : 1 ≤ (u.drop j).length := by omega
      have h1 := isPrefixOf_getElem? hc ((u.drop j).length - 1) (by omega)
      rw [List.getElem?_append, if_pos (by omega), List.getElem?_drop] at h1
      have hp1 : p[(u.drop j).length - 1]? = some ch := by
        rw [List.getElem?_eq_getElem (by omega)]
        exact congrArg some (hall _ (List.getElem_mem _))
      rw [hp1] at h1
      have hj1 : j + ((u.drop j).length - 1) = u.length - 1 := by omega
      rw [hj1] at h1
      exact hlast (by rw [List.getLast?_eq_getElem?]; exact h1.symm)

/-- `<think>` as an explicit cons cell. -/
lemma openTag_cons : openTag = '<' :: "think>".data := by decide

/-- `</think>` as an explicit cons cell. -/
lemma closeTag_cons : closeTag = '<' :: "/think>".data := by decide

lemma findSub?_openTag_boundary (u r : List Char) (hu : containsSub openTag u = false) :
    findSub? openTag (u ++ (openTag ++ r)) = some u.length := by
  rw [openTag_cons] at hu ⊢
  exact findSub?_boundary_head '<' "think>".data u r (by decide) hu

lemma findSub?_closeTag_boundary (u r : List Char) (hu : containsSub closeTag u = false) :
    findSub? closeTag (u ++ (closeTag ++ r)) = some u.length := by
  rw [closeTag_cons] at hu ⊢
  exact findSub?_boundary_head '<' "/think>".data u r (by decide) hu

lemma findSub?_btick_boundary (u r : List Char) (hu : containsSub btick u = false)
    (hlast : u.getLast? ≠ some btChar) :
    findSub? btick (u ++ (btick ++ r)) = some u.length :=
  findSub?_boundary_same btChar btick u r (by decide) (by decide) hu hlast

/-! ## The think-span deletion performed by `sanitize_command` -/

lemma openTag_length : openTag.length = 7 := by decide

lemma closeTag_length : closeTag.length = 8 := by decide

lemma removeThinkFuel_nil : ∀ f, removeThinkFuel f [] = [] := by
  intro f
  cases f with
  | zero => rfl
  | succ g => rfl

/-- `removeThinkFuel` does not depend on the fuel once the fuel covers the
length of the string (each deletion consumes at least 15 characters of the
string but only one unit of fuel). -/
lemma removeThinkFuel_congr : ∀ (f1 f2 : Nat) (s : List Char),
    s.length ≤ f1 → s.length ≤ f2 → removeThinkFuel f1 s = removeThinkFuel f2 s := by
  intro f1
  induction f1 with
  | zero =>
    intro f2 s h1 _
    have hs : s = [] := List.length_eq_zero.mp (Nat.le_zero.mp h1)
    subst hs
    rw [removeThinkFuel_nil, removeThinkFuel_nil]
  | succ g ih =>
    intro f2 s h1 h2
    cases f2 with
    | zero =>
      have hs : s = [] := List.length_eq_zero.mp (Nat.le_zero.mp h2)
      subst hs
      rw [removeThinkFuel_nil, removeThinkFuel_nil]
    | succ g2 =>
      simp only [removeThinkFuel]
      split
      · rfl
      · rename_i i ho
        split
        · rfl
        · rename_i j _hcl
          have hpre := isPrefixOf_of_findSub? openTag s i ho
          have hlen7 : openTag.length ≤ (s.drop i).length := isPrefixOf_length_le hpre
          rw [openTag_length, List.length_drop] at hlen7
          have hrec1 : (s.drop (i + 7 + (j + 8))).length ≤ g := by
            rw [List.length_drop]; omega
          have hrec2 : (s.drop (i + 7 + (j + 8))).length ≤ g2 := by
            rw [List.length_drop]; omega
          rw [ih g2 _ hrec1 hrec2]

/-- The deletion step of the `re.sub`: when no `<think>` occurs before the
span and no `</think>` occurs inside it, the whole `<think>…</think>` span
(tags and content) is deleted and substitution continues after it, never
rescanning the prefix. -/
lemma removeThink_span (a b c : List Char) (ha : containsSub openTag a = false)
    (hb : containsSub closeTag b = false) :
    removeThink (a ++ (openTag ++ (b ++ (closeTag ++ c)))) = a ++ removeThink c := by
  have hopen : findSub? openTag (a ++ (openTag ++ (b ++ (closeTag ++ c)))) =
      some a.length :=
    findSub?_openTag_boundary a (b ++ (closeTag ++ c)) ha
  have hdrop1 : (a ++ (openTag ++ (b ++ (closeTag ++ c)))).drop (a.length + 7) =
      b ++ (closeTag ++ c) := by
    rw [show a ++ (openTag ++ (b ++ (closeTag ++ c))) =
      (a ++ openTag) ++ (b ++ (closeTag ++ c)) by simp [List.append_assoc]]
    rw [show a.length + 7 = (a ++ openTag).length by
      simp [List.length_append, openTag_length]]
    exact List.drop_left _ _
  have hclose : findSub? closeTag (b ++ (closeTag ++ c)) = some b.length :=
    findSub?_closeTag_boundary b c hb
  have htake : (a ++ (openTag ++ (b ++ (closeTag ++ c)))).take a.length = a :=
    List.take_left _ _
  have hdrop2 : (a ++ (openTag ++ (b ++ (closeTag ++ c)))).drop
      (a.length + 7 + (b.length + 8)) = c := by
    rw [show a ++ (openTag ++ (b ++ (closeTag ++ c))) =
      (a ++ (openTag ++ (b ++ closeTag))) ++ c by simp [List.append_assoc]]
    rw [show a.length + 7 + (b.length + 8) = (a ++ (openTag ++ (b ++ closeTag))).length by
      simp [List.length_append, openTag_length, closeTag_length]; omega]
    exact List.drop_left _ _
  have hlens : (a ++ (openTag ++ (b ++ (closeTag ++ c)))).length =
      a.length + (7 + (b.length + (8 + c.length))) := by
    simp [List.length_append, openTag_length, closeTag_length]
  obtain ⟨g, hg⟩ : ∃ g, (a ++ (openTag ++ (b ++ (closeTag ++ c)))).length = g + 1 :=
    ⟨(a ++ (openTag ++ (b ++ (closeTag ++ c)))).length - 1, by omega⟩
  rw [removeThink, hg]
  simp only [removeThinkFuel]
  split
  · rename_i h
    rw [hopen] at h
    cases h
  · rename_i i h
    rw [hopen] at h
    injection h with h2
    subst h2
    rw [hdrop1]
    split
    · rename_i h3
      rw [hclose] at h3
      cases h3
    · rename_i j h3
      rw [hclose] at h3
      injection h3 with h4
      subst h4
      rw [htake, hdrop2]
      congr 1
      rw [removeThink]
      exact removeThinkFuel_congr g c.length c (by omega) (le_refl _)

/-! ## The fence extraction performed by `run_command` -/

lemma btick_explicit : btick = [btChar, btChar, btChar] := by decide

lemma bashTag_not_isPrefixOf (w c2 : List Char) (hw : bashTag.isPrefixOf w = false) :
    bashTag.isPrefixOf (w ++ (btick ++ c2)) = false := by
  by_contra hc
  simp only [Bool.not_eq_false] at hc
  rcases le_or_lt bashTag.length w.length with hle | hlt
  · have hp := isPrefixOf_append_left w hc hle
    rw [hw] at hp
    cases hp
  · have h1 := isPrefixOf_getElem? hc w.length hlt
    rw [List.getElem?_append_right (le_refl _), Nat.sub_self] at h1
    have h2 : (btick ++ c2)[0]? = some btChar := by
      rw [btick_explicit]
      simp
    rw [h2] at h1
    have hmem : btChar ∈ bashTag := by
      obtain ⟨hl2, he⟩ := List.getElem?_eq_some.mp h1
      exact he ▸ List.getElem_mem hl2
    exact absurd hmem (by decide)

/-- Dropping leading whitespace from `w ++ v` only touches `w` when `v` is
itself a fixed point of the whitespace-dropping. -/
lemma dropWhile_isSpace_append (w v : List Char) (hv : v.dropWhile isSpace = v) :
    (w ++ v).dropWhile isSpace = (w.dropWhile isSpace) ++ v := by
  induction w with
  | nil => simpa using hv
  | cons x wt ih =>
    rw [List.cons_append, List.dropWhile_cons, List.dropWhile_cons]
    by_cases hx : isSpace x
    · simp [hx, ih]
    · simp [hx]

lemma btick_append_dropWhile (c2 : List Char) :
    (btick ++ c2).dropWhile isSpace = btick ++ c2 := by
  rw [btick_explicit]
  rw [List.cons_append, List.dropWhile_cons, if_neg (by decide)]

lemma containsSub_dropWhile {pat w : List Char} (h : containsSub pat w = false) :
    containsSub pat (w.dropWhile isSpace) = false := by
  refine containsSub_append_right (w.takeWhile isSpace) _ ?_
  rw [List.takeWhile_append_dropWhile]
  exact h

lemma getLast?_dropWhile_ne {w : List Char} (ch : Char) (h : w.getLast? ≠ some ch) :
    (w.dropWhile isSpace).getLast? ≠ some ch := by
  by_cases hd : w.dropWhile isSpace = []
  · rw [hd]
    simp
  · intro hc
    apply h
    have h2 := List.getLast?_append_of_ne_nil (w.takeWhile isSpace) hd
    rw [List.takeWhile_append_dropWhile] at h2
    rw [h2]
    exact hc

lemma getLast?_cons_ne {x : Char} {a : List Char} (ch : Char)
    (h : (x :: a).getLast? ≠ some ch) (hne : a ≠ []) : a.getLast? ≠ some ch := by
  intro hc
  apply h
  rw [show (x :: a) = [x] ++ a from rfl, List.getLast?_append_of_ne_nil [x] hne]
  exact hc

lemma isPrefixOf_append_extend {p : List Char} :
    ∀ {w : List Char} (v : List Char), p.isPrefixOf w = true →
      p.isPrefixOf (w ++ v) = true := by
  induction p with
  | nil => intro w v _; simp [List.isPrefixOf]
  | cons a as ih =>
    intro w v h
    cases w with
    | nil => simp [List.isPrefixOf] at h
    | cons b bs =>
      rw [List.cons_append]
      simp only [List.isPrefixOf, Bool.and_eq_true] at h ⊢
      exact ⟨h.1, ih v h.2⟩

lemma containsSub_drop {pat w : List Char} (n : Nat) (h : containsSub pat w = false) :
    containsSub pat (w.drop n) = false := by
  refine containsSub_append_right (w.take n) _ ?_
  rw [List.take_append_drop]
  exact h

lemma getLast?_drop_ne {w : List Char} (n : Nat) (ch : Char) (h : w.getLast? ≠ some ch) :
    (w.drop n).getLast? ≠ some ch := by
  by_cases hd : w.drop n = []
  · rw [hd]
    simp
  · intro hc
    apply h
    have h2 := List.getLast?_append_of_ne_nil (w.take n) hd
    rw [List.take_append_drop] at h2
    rw [h2]
    exact hc

lemma btick_not_prefixOf_cons (x : Char) (a : List Char) (v : List Char)
    (hu : containsSub btick (x :: a) = false)
    (hlast : (x :: a).getLast? ≠ some btChar) :
    btick.isPrefixOf ((x :: a) ++ (btick ++ v)) = false := by
  by_contra hc
  simp only [Bool.not_eq_false] at hc
  have hb := findSub?_btick_boundary (x :: a) v hu hlast
  have h0 : findSub? btick ((x :: a) ++ (btick ++ v)) = some 0 := by
    rw [List.cons_append]
    rw [List.cons_append] at hc
    simp [findSub?, hc]
  rw [h0] at hb
  injection hb with h2
  rw [List.length_cons] at h2
  omega

/-- One unfolding step of `extractFence?` at a cons cell. -/
lemma extractFence?_cons (c : Char) (cs : List Char) :
    extractFence? (c :: cs) =
      if btick.isPrefixOf (c :: cs) then
        match findSub? btick
            ((if bashTag.isPrefixOf (cs.drop 2) then (cs.drop 2).drop 4
              else cs.drop 2).dropWhile isSpace) with
        | some m => some (stripRight
            (((if bashTag.isPrefixOf (cs.drop 2) then (cs.drop 2).drop 4
               else cs.drop 2).dropWhile isSpace).take m))
        | none => extractFence? cs
      else extractFence? cs := rfl

/-- The regex search of `run_command` on a text of the shape
`a ++ fence ++ w ++ fence ++ c2` (fences being three backticks), where `a`
holds no fence and does not end in a backtick (so the opening fence is the
leftmost one) and `w` holds no fence and does not end in a backtick (so
the closing fence is the one shown): the captured group is `w` with an
optional leading `bash` language tag consumed by the greedy `(?:bash)?`,
stripped of surrounding whitespace. -/
lemma extractFence?_span : ∀ (a w c2 : List Char),
    containsSub btick a = false → a.getLast? ≠ some btChar →
    containsSub btick w = false → w.getLast? ≠ some btChar →
    extractFence? (a ++ (btick ++ (w ++ (btick ++ c2)))) =
      some (strip (if bashTag.isPrefixOf w then w.drop 4 else w)) := by
  intro a
  induction a with
  | nil =>
    intro w c2 _ _ hw hwlast
    rw [List.nil_append]
    have hshape : btick ++ (w ++ (btick ++ c2)) =
        btChar :: (btChar :: (btChar :: (w ++ (btick ++ c2)))) := by
      rw [btick_explicit]
      rfl
    have hpre : btick.isPrefixOf
        (btChar :: (btChar :: (btChar :: (w ++ (btick ++ c2))))) = true := by
      rw [← hshape]
      exact isPrefixOf_append_self _ _
    rw [hshape, extractFence?_cons, if_pos hpre]
    simp only [List.drop_succ_cons, List.drop_zero]
    by_cases hbash : bashTag.isPrefixOf w = true
    · have hw4 : 4 ≤ w.length := by
        have hl := isPrefixOf_length_le hbash
        have hbl : bashTag.length = 4 := by decide
        omega
      have hb2 : bashTag.isPrefixOf (w ++ (btick ++ c2)) = true :=
        isPrefixOf_append_extend _ hbash
      rw [if_pos hb2]
      rw [show (w ++ (btick ++ c2)).drop 4 = w.drop 4 ++ (btick ++ c2) by
        rw [List.drop_append_eq_append_drop, Nat.sub_eq_zero_of_le hw4, List.drop_zero]]
      rw [dropWhile_isSpace_append (w.drop 4) (btick ++ c2) (btick_append_dropWhile c2)]
      have hfind := findSub?_btick_boundary ((w.drop 4).dropWhile isSpace) c2
        (containsSub_dropWhile (containsSub_drop 4 hw))
        (getLast?_dropWhile_ne btChar (getLast?_drop_ne 4 btChar hwlast))
      split
      · rename_i m h
        rw [hfind] at h
        injection h with h2
        subst h2
        rw [List.take_left, if_pos hbash]
        rfl
      · rename_i h
        rw [hfind] at h
        cases h
    · have hb0 : bashTag.isPrefixOf w = false := Bool.eq_false_iff.mpr hbash
      have hb2 : bashTag.isPrefixOf (w ++ (btick ++ c2)) = false :=
        bashTag_not_isPrefixOf w c2 hb0
      rw [if_neg (by simp [hb2])]
      rw [dropWhile_isSpace_append w (btick ++ c2) (btick_append_dropWhile c2)]
      have hfind := findSub?_btick_boundary (w.dropWhile isSpace) c2
        (containsSub_dropWhile hw) (getLast?_dropWhile_ne btChar hwlast)
      split
      · rename_i m h
        rw [hfind] at h
        injection h with h2
        subst h2
        rw [List.take_left, if_neg (by simp [hb0])]
        rfl
      · rename_i h
        rw [hfind] at h
        cases h
  | cons x at' ih =>
    intro w c2 ha halast hw hwlast
    have hnp := btick_not_prefixOf_cons x at' (w ++ (btick ++ c2)) ha halast
    rw [List.cons_append] at hnp ⊢
    rw [extractFence?_cons, if_neg (by simp [hnp])]
    refine ih w c2 (containsSub_cons x at' ha) ?_ hw hwlast
    by_cases hnil : at' = []
    · subst hnil
      simp
    · exact getLast?_cons_ne btChar halast hnil

/-- C2: when the sanitized text contains a fenced code block — written
`a ++ fence ++ w ++ fence ++ c2` with `a` fence-free and not ending in a
backtick (so the fence shown is the leftmost) and `w` fence-free and not
ending in a backtick — the command text `run_command` uses afterwards is
exactly the trimmed inner content of the fence: `w` with an optional
leading `bash` language tag consumed, stripped of surrounding whitespace.
The prose `a` before and `c2` after the fence is discarded. -/
theorem run_command_uses_fence_inner (input a w c2 : List Char)
    (hsan : sanitize_command input = a ++ btick ++ w ++ btick ++ c2)
    (ha : containsSub btick a = false) (halast : a.getLast? ≠ some btChar)
    (hw : containsSub btick w = false) (hwlast : w.getLast? ≠ some btChar) :
    commandText input = strip (if bashTag.isPrefixOf w then w.drop 4 else w) := by
  simp only [commandText]
  rw [hsan]
  rw [show a ++ btick ++ w ++ btick ++ c2 =
    a ++ (btick ++ (w ++ (btick ++ c2))) by simp [List.append_assoc]]
  rw [extractFence?_span a w c2 ha halast hw hwlast]

/-- Witness for C2, covering both fence flavors: a `bash`-tagged fence
preceded by a think-block (the tag is consumed, yielding `ls -la`), and a
plain fence surrounded by prose (the prose is discarded and the inner
content trimmed to `ls -la`). -/
theorem run_command_uses_fence_inner_witness :
    (sanitize_command "<think>reasoning</think>```bash\nls -la\n```".data =
        [] ++ btick ++ "bash\nls -la\n".data ++ btick ++ [] ∧
      containsSub btick ([] : List Char) = false ∧
      ([] : List Char).getLast? ≠ some btChar ∧
      containsSub btick "bash\nls -la\n".data = false ∧
      "bash\nls -la\n".data.getLast? ≠ some btChar ∧
      commandText "<think>reasoning</think>```bash\nls -la\n```".data =
        strip (if bashTag.isPrefixOf "bash\nls -la\n".data
          then "bash\nls -la\n".data.drop 4 else "bash\nls -la\n".data) ∧
      strip (if bashTag.isPrefixOf "bash\nls -la\n".data
        then "bash\nls -la\n".data.drop 4 else "bash\nls -la\n".data) =
        "ls -la".data) ∧
    (commandText "hi ```\nls -la\n``` bye".data =
        strip (if bashTag.isPrefixOf "\nls -la\n".data
          then "\nls -la\n".data.drop 4 else "\nls -la\n".data) ∧
      strip (if bashTag.isPrefixOf "\nls -la\n".data
        then "\nls -la\n".data.drop 4 else "\nls -la\n".data) = "ls -la".data) :=
  ⟨⟨by decide, by decide, by decide, by decide, by decide,
    run_command_uses_fence_inner "<think>reasoning</think>```bash\nls -la\n```".data
      [] "bash\nls -la\n".data [] (by decide) (by decide) (by decide)
      (by decide) (by decide),
    by decide⟩,
   ⟨run_command_uses_fence_inner "hi ```\nls -la\n``` bye".data "hi ".data
      "\nls -la\n".data " bye".data (by decide) (by decide) (by decide)
      (by decide) (by decide),
    by decide⟩⟩

/-- C1 (counterexample): the sanitizer output can perfectly well contain
the content of a deleted `<think>…</think>` span when the same text also
occurs outside the span: for the input `x<think>x</think>` — which is
`"x" ++ <think> ++ "x" ++ </think> ++ ""`, a span with content `x` — the
output is `x`, which contains the span's content `x`. -/
theorem sanitize_think_content_in_output :
    "x<think>x</think>".data =
      "x".data ++ openTag ++ "x".data ++ closeTag ++ ([] : List Char) ∧
    sanitize_command "x<think>x</think>".data = "x".data ∧
    containsSub "x".data (sanitize_command "x<think>x</think>".data) = true := by
  refine ⟨by decide, by decide, by decide⟩

/-- C1 (amended): `sanitize_command` deletes every `<think>…</think>` span
in place — writing the input as `a ++ <think> ++ b ++ </think> ++ c` with
no `<think>` occurring in `a` (so the span starts at the leftmost opening
tag) and no `</think>` occurring in `b` (so `b` is the whole non-greedy
content), the output is exactly the stripped concatenation of `a` with the
sanitized tail `c`: neither the tags nor the occurrence of the content
between them survives, for any placement or length of the span, newlines
included.  (The same character sequence as `b` may still appear in the
output when it also occurs outside the span.) -/
theorem sanitize_command_removes_think_span (a b c : List Char)
    (ha : containsSub openTag a = false) (hb : containsSub closeTag b = false) :
    sanitize_command (a ++ openTag ++ b ++ closeTag ++ c) =
      strip (a ++ removeThink c) := by
  rw [sanitize_command]
  rw [show a ++ openTag ++ b ++ closeTag ++ c =
    a ++ (openTag ++ (b ++ (closeTag ++ c))) by simp [List.append_assoc]]
  rw [removeThink_span a b c ha hb]

/-- Witness for C1 (amended) on a span containing a newline, sitting in
the middle of the input. -/
theorem sanitize_command_removes_think_span_witness :
    containsSub openTag "pre ".data = false ∧
    containsSub closeTag "secret
reasoning".data = false ∧
    sanitize_command
        ("pre ".data ++ openTag ++ "secret
reasoning".data ++ closeTag ++ " ls".data) =
      strip ("pre ".data ++ removeThink " ls".data) :=
  ⟨by decide, by decide,
    sanitize_command_removes_think_span "pre ".data "secret
reasoning".data
      " ls".data (by decide) (by decide)⟩

/-! ## Lemmas about the filtering loop of `run_command` -/

/-- On POSIX the filtering loop, when it does not raise, keeps exactly the
non-blank lines whose base command resolves (in order) and warns about the
base command of every other non-blank line. -/
lemma filterCommands_posix_ok (resolves : List Char → Bool)
    (cmds : List (List Char)) :
    ∀ kept warned, filterCommands false resolves cmds = .ok (kept, warned) →
      kept = cmds.filter (fun c => !(strip c).isEmpty && (baseCmd? c).elim false resolves) ∧
      warned = cmds.filterMap (fun c =>
        if (strip c).isEmpty then none
        else (baseCmd? c).bind (fun b => if resolves b then none else some b)) := by
  induction cmds with
  | nil =>
    intro kept warned h
    simp only [filterCommands] at h
    cases h
    simp
  | cons cmd rest ih =>
    intro kept warned h
    simp only [filterCommands] at h
    by_cases hblank : (strip cmd).isEmpty
    · have hb : strip cmd = [] := by simpa [List.isEmpty_iff] using hblank
      obtain ⟨h1, h2⟩ := ih kept warned (by simpa [hblank] using h)
      simp [List.filter_cons, List.filterMap_cons, hb, h1, h2]
    · have hb : ¬ strip cmd = [] := by simpa [List.isEmpty_iff] using hblank
      rw [if_neg (by simpa using hblank)] at h
      cases hbase : baseCmd? cmd with
      | none => rw [hbase] at h; cases h
      | some base =>
        rw [hbase] at h
        cases hrec : filterCommands false resolves rest with
        | error e => rw [hrec] at h; cases h
        | ok p =>
          obtain ⟨ks, ws⟩ := p
          obtain ⟨h1, h2⟩ := ih ks ws hrec
          rw [hrec] at h
          by_cases hres : resolves base
          · simp only [Bool.false_eq_true, if_false, hres, if_pos] at h
            cases h
            simp [List.filter_cons, List.filterMap_cons, hb, hblank, hbase, hres, h1, h2]
          · simp only [Bool.false_eq_true, if_false, hres, if_neg] at h
            cases h
            simp [List.filter_cons, List.filterMap_cons, hb, hblank, hbase, hres, h1, h2]

/-! ## Claim theorems -/

/-- C3: on a non-Windows platform, when the per-line filtering completes
without an `IndexError` and at least one command survives, `run_command`
hands the shell exactly the surviving lines — the non-blank lines whose
base executable resolves, in their original order — joined by `; ` inside
the `$SHELL -c` invocation, and the warned-about base commands are exactly
those of the other non-blank lines. -/
theorem run_command_posix_filters_resolvable (ps shellEnv : Option (List Char))
    (resolves : List Char → Bool) (input : List Char) (kept warned : List (List Char))
    (hok : filterCommands false resolves (splitOn nlChar (commandText input)) =
      .ok (kept, warned))
    (hne : kept ≠ []) :
    run_command false ps shellEnv resolves input = .executed (posixCommand shellEnv kept) ∧
    kept = (splitOn nlChar (commandText input)).filter
      (fun c => !(strip c).isEmpty && (baseCmd? c).elim false resolves) ∧
    warned = (splitOn nlChar (commandText input)).filterMap (fun c =>
      if (strip c).isEmpty then none
      else (baseCmd? c).bind (fun b => if resolves b then none else some b)) := by
  obtain ⟨h1, h2⟩ := filterCommands_posix_ok resolves _ kept warned hok
  refine ⟨?_, h1, h2⟩
  simp [run_command, hok, List.isEmpty_iff, hne]

/-- Witness for C3 at a concrete input with a blank middle line and an
everywhere-resolving PATH: both non-blank lines survive in order. -/
theorem run_command_posix_filters_resolvable_witness :
    filterCommands false (fun _ => true)
        (splitOn nlChar (commandText "echo hi\n\nls -la".data)) =
      .ok (["echo hi".data, "ls -la".data], []) ∧
    (run_command false none none (fun _ => true) "echo hi\n\nls -la".data =
        .executed (posixCommand none ["echo hi".data, "ls -la".data]) ∧
      ["echo hi".data, "ls -la".data] =
        (splitOn nlChar (commandText "echo hi\n\nls -la".data)).filter
          (fun c => !(strip c).isEmpty && (baseCmd? c).elim false (fun _ => true)) ∧
      ([] : List (List Char)) =
        (splitOn nlChar (commandText "echo hi\n\nls -la".data)).filterMap (fun c =>
          if (strip c).isEmpty then none
          else (baseCmd? c).bind (fun b => if (fun _ => true) b then none else some b))) :=
  ⟨by rfl,
    run_command_posix_filters_resolvable none none (fun _ => true)
      "echo hi\n\nls -la".data ["echo hi".data, "ls -la".data] []
      (by rfl) (by decide)⟩

/-- C4: when the filtering loop succeeds but keeps nothing, `run_command`
reports `No valid commands to execute` and returns without invoking any
shell (and without raising). -/
theorem run_command_no_valid_commands (iw : Bool) (ps shellEnv : Option (List Char))
    (resolves : List Char → Bool) (input : List Char) (warned : List (List Char))
    (hok : filterCommands iw resolves (splitOn nlChar (commandText input)) =
      .ok ([], warned)) :
    run_command iw ps shellEnv resolves input = .noValidCommands := by
  simp [run_command, hok]

/-- Witness for C4: a single unresolvable command on POSIX is dropped and
nothing is executed. -/
theorem run_command_no_valid_commands_witness :
    filterCommands false (fun _ => false)
        (splitOn nlChar (commandText "frobnicate now".data)) =
      .ok ([], ["frobnicate".data]) ∧
    run_command false none none (fun _ => false) "frobnicate now".data =
      .noValidCommands :=
  ⟨by rfl,
    run_command_no_valid_commands false none none (fun _ => false)
      "frobnicate now".data ["frobnicate".data] (by rfl)⟩

/-- C8 (counterexample): on Windows in the cmd.exe branch the surviving
commands are joined by the four-character separator `SPACE && SPACE`, not by
the bare two-character `&&` the claim states: with commands `echo a` and
`echo b` the executed string is `cmd.exe /c "echo a && echo b"`, which
differs from `cmd.exe /c "echo a&&echo b"`. -/
theorem run_command_windows_join_counterexample :
    run_command true none none (fun _ => true) "echo a\necho b".data =
      .executed "cmd.exe /c \"echo a && echo b\"".data ∧
    "cmd.exe /c \"echo a && echo b\"".data ≠ "cmd.exe /c \"echo a&&echo b\"".data :=
  ⟨by rfl, by decide⟩

/-- C8 (amended): for a non-empty filtered command list, POSIX joins with
`; ` and invokes `$SHELL` (default `/bin/sh`) via `-c` on the
`shlex.quote`d joined string; Windows joins with `; ` and invokes
`powershell.exe` when `PSModulePath` splits into at least 3 entries on
`;`, and otherwise joins with ` && ` (spaces included) and invokes
`cmd.exe`. -/
theorem run_command_shell_invocation (ps shellEnv : Option (List Char))
    (resolves : List Char → Bool) (input : List Char) (kept warned : List (List Char)) :
    (filterCommands true resolves (splitOn nlChar (commandText input)) =
        .ok (kept, warned) → kept ≠ [] →
      run_command true ps shellEnv resolves input = .executed
        (if 3 ≤ (splitOn semiChar (ps.getD [])).length then psCommand kept
         else cmdExeCommand kept)) ∧
    (filterCommands false resolves (splitOn nlChar (commandText input)) =
        .ok (kept, warned) → kept ≠ [] →
      run_command false ps shellEnv resolves input =
        .executed (posixCommand shellEnv kept)) := by
  constructor
  · intro hok hne
    simp only [run_command, hok]
    rw [if_neg (by simpa [List.isEmpty_iff] using hne)]
    split_ifs <;> rfl
  · intro hok hne
    simp only [run_command, hok]
    rw [if_neg (by simpa [List.isEmpty_iff] using hne)]
    rfl

/-- Witness for C8: the PowerShell branch (three path entries) and the
POSIX branch, at concrete inputs. -/
theorem run_command_shell_invocation_witness :
    (filterCommands true (fun _ => true)
        (splitOn nlChar (commandText "echo a\necho b".data)) =
      .ok (["echo a".data, "echo b".data], []) ∧
    run_command true (some "a;b;c".data) none (fun _ => true) "echo a\necho b".data =
      .executed
        (if 3 ≤ (splitOn semiChar ((some "a;b;c".data).getD [])).length then
          psCommand ["echo a".data, "echo b".data]
         else cmdExeCommand ["echo a".data, "echo b".data])) ∧
    (filterCommands false (fun _ => true)
        (splitOn nlChar (commandText "echo a\necho b".data)) =
      .ok (["echo a".data, "echo b".data], []) ∧
    run_command false none (some "/bin/bash".data) (fun _ => true) "echo a\necho b".data =
      .executed (posixCommand (some "/bin/bash".data) ["echo a".data, "echo b".data])) :=
  ⟨⟨by rfl,
    (run_command_shell_invocation (some "a;b;c".data) none (fun _ => true)
        "echo a\necho b".data ["echo a".data, "echo b".data] []).1 (by rfl) (by decide)⟩,
   ⟨by rfl,
    (run_command_shell_invocation none (some "/bin/bash".data) (fun _ => true)
        "echo a\necho b".data ["echo a".data, "echo b".data] []).2 (by rfl) (by decide)⟩⟩

/-- C10: `run_command` is not total.  Any non-blank line whose text before
the first `|` is empty or whitespace makes `cmd.split('|')[0].strip().split()[0]`
raise `IndexError`; in particular the input `| echo hi` makes `run_command`
raise before executing anything, whatever the platform shell, environment
and PATH contents are. -/
theorem run_command_pipe_line_index_error :
    (∀ line : List Char, strip line ≠ [] →
      strip (line.takeWhile (fun c => c != pipeChar)) = [] → baseCmd? line = none) ∧
    (∀ (ps shellEnv : Option (List Char)) (resolves : List Char → Bool),
      run_command false ps shellEnv resolves "| echo hi".data = .indexError) := by
  constructor
  · intro line _ h
    simp [baseCmd?, h, wsSplit, wsSplitAux]
  · intro ps shellEnv resolves
    rfl

/-- Witness for C10 at the concrete line `| echo hi`. -/
theorem run_command_pipe_line_index_error_witness :
    (strip "| echo hi".data ≠ [] ∧
      strip ("| echo hi".data.takeWhile (fun c => c != pipeChar)) = [] ∧
      baseCmd? "| echo hi".data = none) ∧
    run_command false none (some "/bin/zsh".data) (fun _ => true) "| echo hi".data =
      .indexError :=
  ⟨⟨by decide, by decide,
     run_command_pipe_line_index_error.1 "| echo hi".data (by decide) (by decide)⟩,
   run_command_pipe_line_index_error.2 none (some "/bin/zsh".data) (fun _ => true)⟩

/-- C5: when `$SHELL` contains neither `zsh` nor `bash` as a substring,
`install_shell_integration` raises `UsageError` and both rc files are
returned unchanged. -/
theorem install_shell_integration_unsupported (zshInt bashInt : List Char)
    (shell : Option (List Char)) (st : RcState)
    (hz : containsSub "zsh".data (shell.getD []) = false)
    (hb : containsSub "bash".data (shell.getD []) = false) :
    install_shell_integration zshInt bashInt shell st = (.usageError, st) := by
  simp [install_shell_integration, hz, hb]

/-- Witness for C5 with `$SHELL=/usr/bin/fish`. -/
theorem install_shell_integration_unsupported_witness :
    containsSub "zsh".data ((some "/usr/bin/fish".data).getD []) = false ∧
    containsSub "bash".data ((some "/usr/bin/fish".data).getD []) = false ∧
    install_shell_integration "Z".data "B".data (some "/usr/bin/fish".data)
        ⟨"z0".data, "b0".data⟩ =
      (.usageError, ⟨"z0".data, "b0".data⟩) :=
  ⟨by decide, by decide,
    install_shell_integration_unsupported "Z".data "B".data
      (some "/usr/bin/fish".data) ⟨"z0".data, "b0".data⟩ (by decide) (by decide)⟩

/-- C9: `install_shell_integration` is not idempotent: with a supported
shell, running it twice appends the corresponding static blob twice, so the
rc file ends as the original content followed by two copies of the blob
(and the other rc file is untouched). -/
theorem install_shell_integration_appends_twice (zshInt bashInt : List Char)
    (shell : Option (List Char)) (st : RcState) :
    (containsSub "zsh".data (shell.getD []) = true →
      (install_shell_integration zshInt bashInt shell
          (install_shell_integration zshInt bashInt shell st).2).2 =
        ⟨st.zshrc ++ zshInt ++ zshInt, st.bashrc⟩) ∧
    (containsSub "zsh".data (shell.getD []) = false →
      containsSub "bash".data (shell.getD []) = true →
      (install_shell_integration zshInt bashInt shell
          (install_shell_integration zshInt bashInt shell st).2).2 =
        ⟨st.zshrc, st.bashrc ++ bashInt ++ bashInt⟩) := by
  constructor
  · intro hz
    simp [install_shell_integration, hz]
  · intro hz hb
    simp [install_shell_integration, hz, hb]

/-- Witness for C9 for both supported shells. -/
theorem install_shell_integration_appends_twice_witness :
    (containsSub "zsh".data ((some "/bin/zsh".data).getD []) = true ∧
      (install_shell_integration "Z".data "B".data (some "/bin/zsh".data)
          (install_shell_integration "Z".data "B".data (some "/bin/zsh".data)
            ⟨"z0".data, "b0".data⟩).2).2 =
        ⟨"z0".data ++ "Z".data ++ "Z".data, "b0".data⟩) ∧
    (containsSub "zsh".data ((some "/bin/bash".data).getD []) = false ∧
      containsSub "bash".data ((some "/bin/bash".data).getD []) = true ∧
      (install_shell_integration "Z".data "B".data (some "/bin/bash".data)
          (install_shell_integration "Z".data "B".data (some "/bin/bash".data)
            ⟨"z0".data, "b0".data⟩).2).2 =
        ⟨"z0".data, "b0".data ++ "B".data ++ "B".data⟩) :=
  ⟨⟨by decide,
    (install_shell_integration_appends_twice "Z".data "B".data
        (some "/bin/zsh".data) ⟨"z0".data, "b0".data⟩).1 (by decide)⟩,
   ⟨by decide, by decide,
    (install_shell_integration_appends_twice "Z".data "B".data
        (some "/bin/bash".data) ⟨"z0".data, "b0".data⟩).2 (by decide) (by decide)⟩⟩

/-- C6: `get_edited_prompt` always performs create → edit → read → delete
in that order (so the temp file is removed in every outcome, the emptiness
check coming only after the removal), raises `BadParameter` iff the text
read back is empty, and otherwise returns exactly that text. -/
theorem get_edited_prompt_spec (out : List Char) :
    (get_edited_prompt out).1 =
      [EditEvent.createTemp, EditEvent.runEditor, EditEvent.readFile,
        EditEvent.deleteFile] ∧
    ((get_edited_prompt out).2 = .error .badParameter ↔ out = []) ∧
    (out ≠ [] → (get_edited_prompt out).2 = .ok out) := by
  by_cases h : out = []
  · subst h
    exact ⟨rfl, by simp [get_edited_prompt], fun hc => absurd rfl hc⟩
  · have hne : out.isEmpty = false := by simpa [List.isEmpty_iff] using h
    exact ⟨by simp [get_edited_prompt, hne],
      by simp [get_edited_prompt, hne, h],
      fun _ => by simp [get_edited_prompt, hne]⟩

/-- Witness for C6 with non-empty editor output `hi`. -/
theorem get_edited_prompt_spec_witness :
    "hi".data ≠ [] ∧
    (get_edited_prompt "hi".data).2 = .ok "hi".data ∧
    (get_edited_prompt "hi".data).1 =
      [EditEvent.createTemp, EditEvent.runEditor, EditEvent.readFile,
        EditEvent.deleteFile] :=
  ⟨by decide, (get_edited_prompt_spec "hi".data).2.2 (by decide),
    (get_edited_prompt_spec "hi".data).1⟩

/-- C7: the wrapper built by `option_callback` invokes the callback exactly
once and then raises `typer.Exit` when the flag value is non-empty, and
returns untouched without calling the callback when the value is empty. -/
theorem option_callback_spec {σ : Type} (func : σ → σ) (state : σ) (value : List Char) :
    (value = [] → option_callback func state value = (state, false)) ∧
    (value ≠ [] → option_callback func state value = (func state, true)) := by
  constructor
  · intro h
    subst h
    rfl
  · intro h
    have hne : value.isEmpty = false := by simpa [List.isEmpty_iff] using h
    simp [option_callback, hne]

/-- Witness for C7 on both an empty and a non-empty flag value. -/
theorem option_callback_spec_witness :
    ("x".data ≠ [] ∧ option_callback Nat.succ 0 "x".data = (1, true)) ∧
    (option_callback Nat.succ 0 [] = (0, false)) :=
  ⟨⟨by decide, (option_callback_spec Nat.succ 0 "x".data).2 (by decide)⟩,
   (option_callback_spec Nat.succ 0 []).1 rfl⟩

end SGPT
